import Mathlib

set_option autoImplicit false

/-!
# Verification of the diamond-price serving backend

A shallow embedding of `src/backend/app.py` (and of the registry interaction of its
`load_model`), together with proofs of the behavioural properties stated in the
specification: shape and positivity of `/predict` batches, the column-alignment
contract of `DataFrame.reindex`, error handling, degraded mode, the `/health`
contract, determinism, and read-onliness of the request handlers.

Machine floats are modelled by `ℚ` (every float the pipeline manipulates is finite;
`NaN` is modelled separately by `Value.nan`, since pandas uses it as the missing-value
marker and scikit-learn rejects it at `predict` time).
-/

namespace Diamond

/-- A JSON / pandas cell value: a (finite) number, a string, or pandas' missing-value
marker `NaN`. -/
inductive Value where
  | num (q : ℚ)
  | str (s : String)
  | nan
deriving DecidableEq, Repr

def Value.isNum : Value → Bool
  | .num _ => true
  | _ => false

def Value.isStr : Value → Bool
  | .str _ => true
  | _ => false

/-- One feature record of the request body: a JSON object, i.e. an association list
from attribute name to value (a Python `dict` has no duplicate keys; validity of a
batch includes `Nodup` of the keys). -/
abbrev Record := List (String × Value)

def Record.keys (r : Record) : List String := r.map Prod.fst

/-- `dict` lookup: the value bound to key `k`, if any. -/
def Record.lookup? (r : Record) (k : String) : Option Value :=
  (r.find? fun p => p.1 == k).map Prod.snd

/-- A pandas `DataFrame`, column-oriented: a row count (the index length) and a list
of named columns.  In a well-formed frame every column has `nRows` entries. -/
structure DataFrame where
  nRows : Nat
  cols : List (String × List Value)
deriving DecidableEq, Repr

def DataFrame.WF (df : DataFrame) : Prop :=
  ∀ c ∈ df.cols, c.2.length = df.nRows

/-- Append a key to an accumulator unless already present (used to realise pandas'
"union of the dict keys, in order of first appearance" column construction). -/
def insertKey (acc : List String) (k : String) : List String :=
  if k ∈ acc then acc else acc ++ [k]

/-- Column labels of `pd.DataFrame(list_of_dicts)`: union of the records' keys in
order of first appearance, without duplicates. -/
def unionKeys (data : List Record) : List String :=
  data.foldl (fun acc r => r.keys.foldl insertKey acc) []

/-- The column of values bound to key `k`, one per record; a record without the key
contributes `NaN`, as pandas does. -/
def colOf (data : List Record) (k : String) : List Value :=
  data.map fun r => (r.lookup? k).getD Value.nan

/-- `pd.DataFrame(data)` for a JSON array of objects (`app.py` line 91). -/
def dataFrameOf (data : List Record) : DataFrame :=
  ⟨data.length, (unionKeys data).map fun k => (k, colOf data k)⟩

/-- A column is one-hot encoded by `pd.get_dummies` exactly when its dtype is
`object`, i.e. when it holds at least one string. -/
def isCatCol (vs : List Value) : Bool := vs.any Value.isStr

/-- The string values occurring in a column. -/
def strVals (vs : List Value) : List String :=
  vs.filterMap fun v => match v with | .str s => some s | _ => none

/-- Lexicographic comparison of character lists (the order pandas sorts string
categories by). -/
def charListLe : List Char → List Char → Bool
  | [], _ => true
  | _ :: _, [] => false
  | a :: as, b :: bs =>
    if a.toNat < b.toNat then true
    else if b.toNat < a.toNat then false
    else charListLe as bs

def strLe (a b : String) : Bool := charListLe a.data b.data

def insertSorted (a : String) : List String → List String
  | [] => [a]
  | b :: l => if strLe a b then a :: b :: l else b :: insertSorted a l

/-- Insertion sort by the lexicographic string order. -/
def sortStrings : List String → List String
  | [] => []
  | a :: l => insertSorted a (sortStrings l)

/-- The categories `pd.get_dummies` derives for an object column: the distinct string
values present in the batch, in sorted order. -/
def catsOf (vs : List Value) : List String :=
  sortStrings (strVals vs).dedup

/-- The indicator-column label `pd.get_dummies` builds for category `v` of column `k`. -/
def dummyName (k v : String) : String := k ++ "_" ++ v

/-- The indicator value a cell contributes to the dummy column of category `s`:
`1` when it is the string `s`, else `0` (`NaN` cells get an all-zero row). -/
def Value.indicator (x : Value) (s : String) : Value :=
  match x with
  | .str t => if t = s then .num 1 else .num 0
  | _ => .num 0

/-- The block of indicator columns for one object column. -/
def dummyCols (c : String × List Value) : List (String × List Value) :=
  (catsOf c.2).map fun v => (dummyName c.1 v, c.2.map fun x => x.indicator v)

/-- `pd.get_dummies(df)` (`app.py` line 95): the non-object columns in their original
order, followed by the indicator blocks of the object columns in original column
order. -/
def getDummies (df : DataFrame) : DataFrame :=
  ⟨df.nRows,
   df.cols.filter (fun c => !isCatCol c.2) ++
     (df.cols.filter fun c => isCatCol c.2).flatMap dummyCols⟩

/-- First column carrying label `c`, if any. -/
def lookupCol (df : DataFrame) (c : String) : Option (List Value) :=
  (df.cols.find? fun p => p.1 == c).map Prod.snd

/-- `df.reindex(columns=cols, fill_value=0)` (`app.py` line 99): one column per
requested label, in the requested order; a label present in `df` keeps its values,
a label absent from `df` is filled with `0`; every other column of `df` is dropped. -/
def reindex (df : DataFrame) (cols : List String) : DataFrame :=
  ⟨df.nRows,
   cols.map fun c => (c, (lookupCol df c).getD (List.replicate df.nRows (Value.num 0)))⟩

/-- Modelled from the spec (§3 "Model artifact", §4.3) and `src/backend/train.py`:
the artifact is opaque to the serving process, which treats it as a pure function
from an aligned numeric matrix to one scalar prediction per row.  Per `train.py` it
is a scikit-learn `RandomForestRegressor`: a list of regression trees, each routing
an input row to a leaf that holds the training targets that fell there and
predicting their mean; the forest predicts the mean of the tree predictions.
`nFeatures` is the input width fixed at `fit` time; scikit-learn rejects at
`predict` time any matrix whose width differs. -/
structure Model where
  nFeatures : Nat
  trees : List (List ℚ → List ℚ)

/-- Arithmetic mean (`0` on the empty list, as `ℚ` division by zero is `0`). -/
def mean (l : List ℚ) : ℚ := l.sum / l.length

/-- Forest prediction on one (aligned, numeric) row. -/
def Model.predictRow (m : Model) (row : List ℚ) : ℚ :=
  mean (m.trees.map fun t => mean (t row))

/-- Numeric coercion performed by scikit-learn's input validation: a number is
accepted, `NaN` and strings raise. -/
def Value.toNum? : Value → Option ℚ
  | .num q => some q
  | _ => none

/-- Positional row `i` of a frame (cells beyond a column's length read as `NaN`;
never reached on well-formed frames). -/
def DataFrame.row (df : DataFrame) (i : Nat) : List Value :=
  df.cols.map fun c => (c.2.get? i).getD Value.nan

/-- `model.predict(df)` (`app.py` line 102): validate the input width, coerce every
cell to a number, and predict row by row; a failure raises (here: `Except.error`
carrying the exception text). -/
def modelPredict (m : Model) (df : DataFrame) : Except String (List ℚ) :=
  if df.cols.length ≠ m.nFeatures then
    .error "X has a wrong number of features"
  else
    match (List.range df.nRows).mapM (fun i => (df.row i).mapM Value.toNum?) with
    | none => .error "could not convert data to float"
    | some rows => .ok (rows.map m.predictRow)

/-- The body of the `try:` block of `predict` (`app.py` lines 89-104): build the
frame, one-hot encode, align to the training columns, run the model. -/
def runPredict (m : Model) (tc : List String) (data : List Record) :
    Except String (List ℚ) :=
  modelPredict m (reindex (getDummies (dataFrameOf data)) tc)

/-- The two module-level globals of `app.py` (lines 18-19), `None` before a
successful load. -/
structure ServerState where
  model : Option Model
  training_columns : Option (List String)

/-- A `/predict` JSON response together with its HTTP status. -/
inductive Response where
  | ok (predicted_price : List ℚ)
  | clientError (error : String)
  | serverError (error : String)
deriving DecidableEq, Repr

def Response.statusCode : Response → Nat
  | .ok _ => 200
  | .clientError _ => 400
  | .serverError _ => 500

def notLoadedMsg : String :=
  "Model not loaded. Please ensure the model is registered in MLflow and promoted to Production stage in DagsHub."

/-- The `/predict` handler (`app.py` lines 80-107): `500` when the model or the
training columns are missing, otherwise the pipeline guarded by
`try/except Exception` returning `400` with the exception text. -/
def predictHandler (st : ServerState) (data : List Record) : Response :=
  match st.model, st.training_columns with
  | some m, some tc =>
    match runPredict m tc data with
    | .ok prices => .ok prices
    | .error e => .clientError e
  | _, _ => .serverError notLoadedMsg

/-- The `/health` JSON body (`app.py` lines 113-117). -/
structure HealthResponse where
  status : String
  model_status : String
  message : String
deriving DecidableEq, Repr

/-- The `/health` handler (`app.py` lines 109-117); `jsonify` replies with status
`200`.  Note the source computes `model_status` from `model` alone. -/
def healthHandler (st : ServerState) : Nat × HealthResponse :=
  (200,
   { status := "running"
     model_status := if st.model.isSome then "loaded" else "not loaded"
     message := "Diamond Price Prediction API is running" })

/-- Outcome of one call into an external service (DagsHub / MLflow): a value, or a
raised exception carrying a message. -/
inductive ExtResult (α : Type) where
  | ok (a : α)
  | exn (msg : String)

def ExtResult.isExn {α : Type} : ExtResult α → Bool
  | .exn _ => true
  | .ok _ => false

/-- One entry of `client.get_latest_versions(...)`. -/
structure VersionInfo where
  version : String
  runId : String

/-- The external world `load_model` talks to: `dagshub.init`, the two
`get_latest_versions` calls, `mlflow.sklearn.load_model` (by URI) and the
`model_meta/training_columns.json` artifact download (by run id). -/
structure Env where
  initResult : ExtResult Unit
  prodLookup : ExtResult (List VersionInfo)
  latestLookup : ExtResult (List VersionInfo)
  loadModelAt : String → ExtResult Model
  artifactsAt : String → ExtResult (List String)

def MODEL_NAME : String := "diamond-price-regressor"

def productionUri : String := "models:/" ++ MODEL_NAME ++ "/Production"

/-- `load_model` (`app.py` lines 21-78), translated statement by statement.
`model_uri` is assigned (line 37) before the Production lookup runs, so it is
non-`None` on every path out of the first inner `try`; the line-46 test
`if model_uri is None` guards the latest-version fallback.  The outer
`except Exception` turns every raise into a normal return, leaving whatever
global assignments had already happened (the model is assigned at line 63,
the columns at line 72). -/
def load_model (env : Env) (st : ServerState) : ServerState :=
  match env.initResult with
  | .exn _ => st
  | .ok _ =>
    let model_uri : Option String := some productionUri
    let run_id : Option String :=
      match env.prodLookup with
      | .exn _ => none
      | .ok [] => none
      | .ok (v :: _) => some v.runId
    let step2 : Option String × Option String :=
      if model_uri.isNone then
        match env.latestLookup with
        | .exn _ => (model_uri, run_id)
        | .ok [] => (model_uri, run_id)
        | .ok (v :: _) =>
            (some ("models:/" ++ MODEL_NAME ++ "/" ++ v.version), some v.runId)
      else (model_uri, run_id)
    match step2.1, step2.2 with
    | some uri, some rid =>
      (match env.loadModelAt uri with
       | .exn _ => st
       | .ok m =>
         match env.artifactsAt rid with
         | .exn _ => { st with model := some m }
         | .ok cols => { model := some m, training_columns := some cols })
    | _, _ => st

/-- An incoming HTTP request to one of the two routes. -/
inductive Request where
  | healthCheck
  | predictCall (data : List Record)

/-- The body of an HTTP reply. -/
inductive ReplyBody where
  | predictReply (r : Response)
  | healthReply (code : Nat) (h : HealthResponse)

/-- Dispatch one request.  The handlers read the globals and return a reply; neither
contains a `global` statement, so the state is returned unchanged. -/
def handle (st : ServerState) (rq : Request) : ReplyBody × ServerState :=
  match rq with
  | .healthCheck => (.healthReply (healthHandler st).1 (healthHandler st).2, st)
  | .predictCall data => (.predictReply (predictHandler st data), st)

/-- Serve a sequence of requests, threading the process state through. -/
def handleAll (st : ServerState) (rqs : List Request) : List ReplyBody × ServerState :=
  match rqs with
  | [] => ([], st)
  | rq :: rest =>
    let p := handle st rq
    let q := handleAll p.2 rest
    (p.1 :: q.1, q.2)

/-- The keys every record of a batch is measured against: those of the first record. -/
def batchKeys (data : List Record) : List String :=
  match data with
  | [] => []
  | r :: _ => r.keys

/-- A valid feature-record batch: nonempty; all records carry the same, duplicate-free
key list; every column of the resulting frame is homogeneous (all numbers or all
strings, hence in particular no missing cells); and the one-hot expansion produces
no clashing column labels (with the diamond attribute names, labels like
`cut_Ideal` never collide). -/
def ValidBatch (data : List Record) : Prop :=
  data ≠ [] ∧
  (batchKeys data).Nodup ∧
  (∀ r ∈ data, r.keys = batchKeys data) ∧
  (∀ c ∈ (dataFrameOf data).cols, (∀ v ∈ c.2, v.isNum = true) ∨ (∀ v ∈ c.2, v.isStr = true)) ∧
  ((getDummies (dataFrameOf data)).cols.map Prod.fst).Nodup

instance (data : List Record) : Decidable (ValidBatch data) := by
  unfold ValidBatch; infer_instance

/-- Whether some categorical cell of the record generates exactly the dummy label `c`. -/
def Record.dummyHit (r : Record) (c : String) : Bool :=
  r.any fun p =>
    match p.2 with
    | .str s => dummyName p.1 s == c
    | _ => false

/-- The aligned cell of a single record at training column `c`, read off the record
alone: a numeric attribute named `c` keeps its value; otherwise the cell is `1`
exactly when some categorical cell of the record produces the indicator label `c`,
else `0`. -/
def recordCell (r : Record) (c : String) : ℚ :=
  match r.lookup? c with
  | some (.num q) => q
  | _ => if r.dummyHit c then 1 else 0

/-- The aligned feature vector of a single record, one cell per training column. -/
def alignedRowOfRecord (tc : List String) (r : Record) : List ℚ :=
  tc.map (recordCell r)

/-- The closed form of a successful `/predict` reply: one forest prediction per
record, on that record's aligned feature vector, in input order. -/
def predictedList (m : Model) (tc : List String) (data : List Record) : List ℚ :=
  (List.range data.length).map fun i =>
    m.predictRow (alignedRowOfRecord tc ((data.get? i).getD []))

/-! ## Column lookup and reindexing -/

theorem lookupCol_map (n : Nat) (f : String → List Value) (ks : List String) (c : String) :
    lookupCol ⟨n, ks.map fun k => (k, f k)⟩ c = if c ∈ ks then some (f c) else none := by
  induction ks with
  | nil => simp [lookupCol]
  | cons k ks ih =>
    by_cases hk : k = c
    · subst hk
      simp [lookupCol, List.find?_cons_of_pos]
    · have hk2 : ¬c = k := fun h => hk h.symm
      have h1 : lookupCol ⟨n, (k :: ks).map fun k => (k, f k)⟩ c
          = lookupCol ⟨n, ks.map fun k => (k, f k)⟩ c := by
        simp [lookupCol, List.find?_cons_of_neg, hk]
      rw [h1, ih]
      simp [List.mem_cons, hk2]

theorem lookupCol_reindex (df : DataFrame) (cols : List String) (c : String) :
    lookupCol (reindex df cols) c =
      if c ∈ cols then
        some ((lookupCol df c).getD (List.replicate df.nRows (Value.num 0)))
      else none :=
  lookupCol_map df.nRows _ cols c

theorem reindex_names (df : DataFrame) (cols : List String) :
    (reindex df cols).cols.map Prod.fst = cols := by
  simp only [reindex, List.map_map]
  exact (List.map_congr_left fun a _ => rfl).trans (List.map_id cols)

/-- C2: `reindex` onto the training column list adds, with fill value `0`, every
column named in the list but absent from the frame; keeps the values of every column
present in both; drops every column of the frame not named in the list; and orders
the result exactly as the training list.  (Frames reaching this step have
duplicate-free labels; pandas refuses to reindex the others.) -/
theorem reindex_alignment_contract (df : DataFrame) (cols : List String)
    (hdf : (df.cols.map Prod.fst).Nodup) :
    ((reindex df cols).cols.map Prod.fst = cols) ∧
    (∀ c, c ∈ cols → lookupCol df c = none →
        lookupCol (reindex df cols) c = some (List.replicate df.nRows (Value.num 0))) ∧
    (∀ c vs, c ∈ cols → lookupCol df c = some vs →
        lookupCol (reindex df cols) c = some vs) ∧
    (∀ c, c ∉ cols → lookupCol (reindex df cols) c = none) := by
  refine ⟨reindex_names df cols, ?_, ?_, ?_⟩
  · intro c hc hnone
    rw [lookupCol_reindex, if_pos hc, hnone]
    rfl
  · intro c vs hc hsome
    rw [lookupCol_reindex, if_pos hc, hsome]
    rfl
  · intro c hc
    rw [lookupCol_reindex, if_neg hc]

def dfW : DataFrame :=
  ⟨2, [("carat", [Value.num 1, Value.num 2]), ("extra", [Value.num 5, Value.num 6])]⟩

def colsW : List String := ["carat", "cut_Ideal"]

/-- Witness for C2 on a concrete two-row frame: the missing training column
`cut_Ideal` is zero-filled, `carat` keeps its values, the extra column is dropped,
and the output labels follow the training list. -/
theorem reindex_alignment_contract_witness :
    lookupCol (reindex dfW colsW) "cut_Ideal" = some (List.replicate 2 (Value.num 0)) ∧
    lookupCol (reindex dfW colsW) "carat" = some [Value.num 1, Value.num 2] ∧
    lookupCol (reindex dfW colsW) "extra" = none ∧
    (reindex dfW colsW).cols.map Prod.fst = colsW := by
  have h := reindex_alignment_contract dfW colsW (by decide)
  exact ⟨h.2.1 "cut_Ideal" (by decide) (by decide),
         h.2.2.1 "carat" [Value.num 1, Value.num 2] (by decide) (by decide),
         h.2.2.2 "extra" (by decide),
         h.1⟩

/-- C3: column alignment is idempotent — reindexing the result of a reindex onto the
same (duplicate-free) training column list returns it unchanged. -/
theorem reindex_idempotent (df : DataFrame) (cols : List String) (hcols : cols.Nodup) :
    reindex (reindex df cols) cols = reindex df cols := by
  simp only [reindex, DataFrame.mk.injEq, true_and]
  apply List.map_congr_left
  intro c hc
  have h := lookupCol_map df.nRows
      (fun c => (lookupCol df c).getD (List.replicate df.nRows (Value.num 0))) cols c
  rw [h, if_pos hc]
  rfl

/-- Witness for C3: idempotence evaluated at the concrete frame and column list of
the C2 witness. -/
theorem reindex_idempotent_witness :
    reindex (reindex dfW colsW) colsW = reindex dfW colsW :=
  reindex_idempotent dfW colsW (by decide)

/-! ## Error handling of the predict route -/

theorem mapM_option_length {α β : Type} (f : α → Option β) :
    ∀ (l : List α) (l2 : List β), l.mapM f = some l2 → l2.length = l.length := by
  intro l
  induction l with
  | nil =>
    intro l2 h
    rw [List.mapM_nil] at h
    cases h
    rfl
  | cons a l ih =>
    intro l2 h
    rw [List.mapM_cons] at h
    cases hfa : f a with
    | none => rw [hfa] at h; simp at h
    | some b =>
      rw [hfa] at h
      cases hlm : l.mapM f with
      | none => rw [hlm] at h; simp at h
      | some bs =>
        rw [hlm] at h
        simp only [Option.bind_eq_bind, Option.some_bind, Option.pure_def,
          Option.some.injEq] at h
        cases h
        simp [ih bs hlm]

theorem runPredict_ok_length (m : Model) (tc : List String) (data : List Record)
    (prices : List ℚ) (h : runPredict m tc data = .ok prices) :
    prices.length = data.length := by
  unfold runPredict modelPredict at h
  by_cases hn : (reindex (getDummies (dataFrameOf data)) tc).cols.length ≠ m.nFeatures
  · rw [if_pos hn] at h; cases h
  · rw [if_neg hn] at h
    cases hm : (List.range (reindex (getDummies (dataFrameOf data)) tc).nRows).mapM
        (fun i => ((reindex (getDummies (dataFrameOf data)) tc).row i).mapM Value.toNum?) with
    | none => rw [hm] at h; cases h
    | some rows =>
      rw [hm] at h
      cases h
      rw [List.length_map, mapM_option_length _ _ _ hm, List.length_range]
      rfl

/-- C4: with model and columns loaded, whenever the decode/align/infer pipeline
raises, `/predict` answers `400` with exactly the exception text; and whenever it
answers `200`, the carried price list is the complete result of the pipeline, one
entry per input record — never a partial result. -/
theorem predict_error_contract (m : Model) (tc : List String) (data : List Record) :
    (∀ e, runPredict m tc data = .error e →
        predictHandler ⟨some m, some tc⟩ data = .clientError e ∧
        (predictHandler ⟨some m, some tc⟩ data).statusCode = 400) ∧
    (∀ prices, predictHandler ⟨some m, some tc⟩ data = .ok prices →
        runPredict m tc data = .ok prices ∧ prices.length = data.length) := by
  constructor
  · intro e he
    simp [predictHandler, he, Response.statusCode]
  · intro prices hp
    simp only [predictHandler] at hp
    cases hr : runPredict m tc data with
    | ok ps =>
      rw [hr] at hp
      have hps : ps = prices := by cases hp; rfl
      subst hps
      exact ⟨rfl, runPredict_ok_length m tc data ps hr⟩
    | error e =>
      rw [hr] at hp
      cases hp

def m0 : Model := ⟨1, []⟩

def tc0 : List String := ["carat"]

def data0 : List Record := [[("carat", Value.nan)]]

/-- Witness for C4: a record whose `carat` cell is `NaN` makes scikit-learn's float
coercion raise; the handler answers `400` carrying that text. -/
theorem predict_error_contract_witness :
    predictHandler ⟨some m0, some tc0⟩ data0 =
      Response.clientError "could not convert data to float" ∧
    (predictHandler ⟨some m0, some tc0⟩ data0).statusCode = 400 :=
  (predict_error_contract m0 tc0 data0).1 "could not convert data to float" rfl

/-! ## Degraded mode -/

def runIdOf (env : Env) : Option String :=
  match env.prodLookup with
  | .exn _ => none
  | .ok [] => none
  | .ok (v :: _) => some v.runId

/-- Some step of `load_model` fails: `dagshub.init` raises, or no run id can be
resolved (Production lookup raised or returned no version), or loading the model
binary raises, or downloading the columns artifact raises. -/
def loadFailure (env : Env) : Prop :=
  env.initResult.isExn = true ∨
  runIdOf env = none ∨
  (env.loadModelAt productionUri).isExn = true ∨
  (∃ rid, runIdOf env = some rid ∧ (env.artifactsAt rid).isExn = true)

/-- C5: a startup failure is not fatal — `load_model` returns normally, leaving the
model or the training columns unloaded — and every `/predict` call made while either
is missing performs no inference and answers `500` with the explanatory message. -/
theorem degraded_mode (env : Env) (hfail : loadFailure env) :
    ((load_model env ⟨none, none⟩).model = none ∨
     (load_model env ⟨none, none⟩).training_columns = none) ∧
    (∀ (st : ServerState) (data : List Record),
       st.model = none ∨ st.training_columns = none →
       predictHandler st data = .serverError notLoadedMsg ∧
       (predictHandler st data).statusCode = 500) := by
  constructor
  · cases hi : env.initResult with
    | exn msg => simp [load_model, hi]
    | ok u =>
      cases hp : env.prodLookup with
      | exn msg => simp [load_model, hi, hp]
      | ok vs =>
        cases vs with
        | nil => simp [load_model, hi, hp]
        | cons v vs =>
          rcases hfail with hf | hf | hf | ⟨rid, hrid, hf⟩
          · rw [hi] at hf; cases hf
          · rw [runIdOf, hp] at hf; cases hf
          · cases hl : env.loadModelAt productionUri with
            | exn msg => simp [load_model, hi, hp, hl]
            | ok mdl => rw [hl] at hf; cases hf
          · rw [runIdOf, hp] at hrid
            cases hrid
            cases hl : env.loadModelAt productionUri with
            | exn msg => simp [load_model, hi, hp, hl]
            | ok mdl =>
              cases ha : env.artifactsAt v.runId with
              | exn msg => simp [load_model, hi, hp, hl, ha]
              | ok cols => rw [ha] at hf; cases hf
  · intro st data h
    match st, h with
    | ⟨none, tco⟩, _ => exact ⟨rfl, rfl⟩
    | ⟨some m, none⟩, _ => exact ⟨rfl, rfl⟩
    | ⟨some m, some tc⟩, h =>
      rcases h with h | h
      · cases h
      · cases h

def envFail : Env :=
  { initResult := .ok ()
    prodLookup := .exn "registry unreachable"
    latestLookup := .ok []
    loadModelAt := fun _ => .exn "load failed"
    artifactsAt := fun _ => .exn "download failed" }

/-- Witness for C5: with the registry unreachable, `load_model` leaves the state
unloaded and a subsequent `/predict` answers the `500` explanatory error. -/
theorem degraded_mode_witness :
    ((load_model envFail ⟨none, none⟩).model = none ∨
     (load_model envFail ⟨none, none⟩).training_columns = none) ∧
    predictHandler ⟨none, none⟩ [] = .serverError notLoadedMsg := by
  have h := degraded_mode envFail (Or.inr (Or.inl rfl))
  exact ⟨h.1, (h.2 ⟨none, none⟩ [] (Or.inl rfl)).1⟩

/-! ## Health route -/

def mW : Model := ⟨1, []⟩

def stHalf : ServerState := ⟨some mW, none⟩

/-- Counterexample to C6 as stated: in the state where the model loaded but the
training-columns download failed, `/health` reports `model_status = "loaded"` even
though the training columns are not loaded — the handler consults only `model`. -/
theorem health_model_status_counterexample :
    ¬((healthHandler stHalf).2.model_status = "loaded" ↔
        (stHalf.model.isSome = true ∧ stHalf.training_columns.isSome = true)) := by
  intro h
  have h1 : (healthHandler stHalf).2.model_status = "loaded" := rfl
  have h2 := (h.mp h1).2
  simp [stHalf] at h2

/-- C6 (amended): every `/health` request returns `200` with a `status` field, a
`message` field, and a `model_status` field equal to `"loaded"` or `"not loaded"`;
`model_status` reports whether the model is currently loaded (the training columns
are not consulted). -/
theorem health_contract (st : ServerState) :
    (healthHandler st).1 = 200 ∧
    (healthHandler st).2.status = "running" ∧
    (healthHandler st).2.message = "Diamond Price Prediction API is running" ∧
    ((healthHandler st).2.model_status = "loaded" ∨
     (healthHandler st).2.model_status = "not loaded") ∧
    ((healthHandler st).2.model_status = "loaded" ↔ st.model.isSome = true) := by
  cases hm : st.model with
  | none => refine ⟨rfl, rfl, rfl, Or.inr ?_, ?_⟩ <;> simp [healthHandler, hm]
  | some m => refine ⟨rfl, rfl, rfl, Or.inl ?_, ?_⟩ <;> simp [healthHandler, hm]

/-! ## Determinism and read-only handlers -/

/-- C8: `/predict` is a pure function of the request body and the loaded
model/columns state — two requests with identical bodies evaluated against the same
loaded model and training columns receive identical responses. -/
theorem predict_deterministic (st1 st2 : ServerState) (data : List Record)
    (hm : st1.model = st2.model) (htc : st1.training_columns = st2.training_columns) :
    predictHandler st1 data = predictHandler st2 data := by
  cases st1 with
  | mk m1 t1 =>
    cases st2 with
    | mk m2 t2 =>
      have hm2 : m1 = m2 := hm
      have ht2 : t1 = t2 := htc
      subst hm2
      subst ht2
      rfl

/-- Witness for C8 at a concrete loaded state and body. -/
theorem predict_deterministic_witness :
    predictHandler ⟨some mW, some tc0⟩ data0 = predictHandler ⟨some mW, some tc0⟩ data0 :=
  predict_deterministic ⟨some mW, some tc0⟩ ⟨some mW, some tc0⟩ data0 rfl rfl

/-- C9: neither handler mutates the process state: serving any sequence of
`/health` and `/predict` requests returns the model and training-columns globals
exactly as they were after `load_model` finished. -/
theorem handlers_readonly (st : ServerState) (rqs : List Request) :
    (handleAll st rqs).2 = st := by
  induction rqs generalizing st with
  | nil => rfl
  | cons rq rest ih =>
    cases rq with
    | healthCheck => exact ih st
    | predictCall data => exact ih st

/-! ## The dead Production fallback -/

def envNoProd : Env :=
  { initResult := .ok ()
    prodLookup := .ok []
    latestLookup := .ok [⟨"3", "run-3"⟩]
    loadModelAt := fun _ => .ok mW
    artifactsAt := fun _ => .ok ["carat"] }

/-- C10 fails on the code: `model_uri` is assigned the Production URI before the
lookup can fail, so the `if model_uri is None` fallback to the latest registered
version is dead code — `load_model` never reads the latest-version lookup — and
with no Production version (empty lookup result) the process stays degraded even
though a loadable latest version exists. -/
theorem production_fallback_dead :
    (∀ (env : Env) (st : ServerState) (alt : ExtResult (List VersionInfo)),
        load_model { env with latestLookup := alt } st = load_model env st) ∧
    load_model envNoProd ⟨none, none⟩ = ⟨none, none⟩ :=
  ⟨fun _ _ _ => rfl, rfl⟩

/-! ## Record lookup lemmas -/

theorem lookup?_mem (r : Record) (k : String) (v : Value) (h : r.lookup? k = some v) :
    (k, v) ∈ r := by
  unfold Record.lookup? at h
  obtain ⟨pair, hfind, hsnd⟩ := Option.map_eq_some'.mp h
  have hmem := List.mem_of_find?_eq_some hfind
  have hfst : pair.1 = k := by simpa using List.find?_some hfind
  have hpair : pair = (k, v) := Prod.ext hfst hsnd
  rwa [hpair] at hmem

theorem mem_keys_of_mem (r : Record) (k : String) (v : Value) (h : (k, v) ∈ r) :
    k ∈ r.keys :=
  List.mem_map_of_mem Prod.fst h

theorem lookup?_isSome_of_mem_keys (r : Record) (k : String) (h : k ∈ r.keys) :
    ∃ v, r.lookup? k = some v := by
  obtain ⟨p, hp, hpk⟩ := List.mem_map.mp h
  cases hq : r.lookup? k with
  | some v => exact ⟨v, rfl⟩
  | none =>
    unfold Record.lookup? at hq
    rw [Option.map_eq_none'] at hq
    rw [List.find?_eq_none] at hq
    exact absurd (by simpa using hpk : (p.1 == k) = true) (hq p hp)

theorem lookup?_eq_some_of_mem (r : Record) (k : String) (v : Value)
    (hnd : r.keys.Nodup) (hmem : (k, v) ∈ r) : r.lookup? k = some v := by
  induction r with
  | nil => cases hmem
  | cons p r ih =>
    have hnd2 : (p.1 :: Record.keys r).Nodup := hnd
    rcases List.mem_cons.mp hmem with rfl | hm
    · unfold Record.lookup?
      rw [List.find?_cons_of_pos _ (by simp)]
      rfl
    · by_cases hpk : p.1 = k
      · exact absurd (hpk ▸ mem_keys_of_mem r k v hm) (List.nodup_cons.mp hnd2).1
      · unfold Record.lookup?
        rw [List.find?_cons_of_neg _ (by simp [hpk])]
        exact ih (List.nodup_cons.mp hnd2).2 hm

/-- Shape of `Record.dummyHit`: true exactly when some string-valued cell of the
record produces the dummy label `c`. -/
theorem dummyHit_eq_true (r : Record) (c : String) :
    r.dummyHit c = true ↔ ∃ k2 s2, (k2, Value.str s2) ∈ r ∧ dummyName k2 s2 = c := by
  unfold Record.dummyHit
  rw [List.any_eq_true]
  constructor
  · rintro ⟨p, hp, hpt⟩
    cases hp2 : p.2 with
    | str s2 =>
      rw [hp2] at hpt
      refine ⟨p.1, s2, ?_, by simpa using hpt⟩
      rw [← hp2]
      exact hp
    | num q => rw [hp2] at hpt; simp at hpt
    | nan => rw [hp2] at hpt; simp at hpt
  · rintro ⟨k2, s2, hm, he⟩
    exact ⟨(k2, Value.str s2), hm, by simpa using he⟩

/-! ## Union of batch keys -/

theorem foldl_insertKey_of_subset (ks : List String) :
    ∀ acc : List String, (∀ k ∈ ks, k ∈ acc) → ks.foldl insertKey acc = acc := by
  induction ks with
  | nil => intro acc _; rfl
  | cons k ks ih =>
    intro acc h
    rw [List.foldl_cons]
    have hk : insertKey acc k = acc := by
      unfold insertKey
      rw [if_pos (h k (by simp))]
    rw [hk]
    exact ih acc fun k2 hk2 => h k2 (List.mem_cons_of_mem _ hk2)

theorem foldl_insertKey_fresh (ks : List String) :
    ∀ acc : List String, ks.Nodup → (∀ k ∈ ks, k ∉ acc) →
      ks.foldl insertKey acc = acc ++ ks := by
  induction ks with
  | nil => intro acc _ _; simp
  | cons k ks ih =>
    intro acc hnd hdis
    rw [List.foldl_cons]
    have h1 : insertKey acc k = acc ++ [k] := by
      unfold insertKey
      rw [if_neg (hdis k (by simp))]
    rw [h1, ih (acc ++ [k]) (List.Nodup.of_cons hnd) ?_]
    · simp
    · intro k2 hk2 hmem
      rcases List.mem_append.mp hmem with h2 | h2
      · exact hdis k2 (List.mem_cons_of_mem _ hk2) h2
      · rw [List.mem_singleton] at h2
        subst h2
        exact (List.nodup_cons.mp hnd).1 hk2

theorem unionKeys_valid (data : List Record) (hne : data ≠ [])
    (hnd : (batchKeys data).Nodup) (hks : ∀ r ∈ data, r.keys = batchKeys data) :
    unionKeys data = batchKeys data := by
  cases data with
  | nil => exact absurd rfl hne
  | cons r rs =>
    have hbk : batchKeys (r :: rs) = r.keys := rfl
    unfold unionKeys
    rw [List.foldl_cons]
    have h1 : r.keys.foldl insertKey [] = r.keys := by
      have h := foldl_insertKey_fresh r.keys [] hnd fun k _ => List.not_mem_nil k
      simpa using h
    rw [h1, hbk]
    have h2 : ∀ l : List Record, (∀ r2 ∈ l, r2.keys = r.keys) →
        l.foldl (fun acc r2 => r2.keys.foldl insertKey acc) r.keys = r.keys := by
      intro l
      induction l with
      | nil => intro _; rfl
      | cons r2 l ih2 =>
        intro hall
        rw [List.foldl_cons]
        have h3 : r2.keys.foldl insertKey r.keys = r.keys := by
          apply foldl_insertKey_of_subset
          intro k hk
          rwa [hall r2 (by simp)] at hk
        rw [h3]
        exact ih2 fun r3 h3 => hall r3 (List.mem_cons_of_mem _ h3)
    exact h2 rs fun r2 h => (hks r2 (List.mem_cons_of_mem _ h)).trans hbk

/-! ## The frame of a valid batch -/

theorem dataFrameOf_valid (data : List Record) (hv : ValidBatch data) :
    dataFrameOf data = ⟨data.length, (batchKeys data).map fun k => (k, colOf data k)⟩ := by
  unfold dataFrameOf
  rw [unionKeys_valid data hv.1 hv.2.1 hv.2.2.1]

theorem colOf_get (data : List Record) (k : String) (i : Nat) (r : Record)
    (hi : data.get? i = some r) :
    (colOf data k).get? i = some ((r.lookup? k).getD Value.nan) := by
  unfold colOf
  rw [List.get?_map, hi]
  rfl

theorem mem_colOf (data : List Record) (r : Record) (k : String) (h : r ∈ data) :
    (r.lookup? k).getD Value.nan ∈ colOf data k :=
  List.mem_map_of_mem _ h

theorem col_homog (data : List Record) (hv : ValidBatch data) (k : String)
    (hk : k ∈ batchKeys data) :
    (∀ v ∈ colOf data k, v.isNum = true) ∨ (∀ v ∈ colOf data k, v.isStr = true) := by
  apply hv.2.2.2.1 (k, colOf data k)
  rw [dataFrameOf_valid data hv]
  exact List.mem_map_of_mem _ hk

theorem isCatCol_eq_false (vs : List Value) (h : ∀ v ∈ vs, v.isNum = true) :
    isCatCol vs = false := by
  unfold isCatCol
  rw [List.any_eq_false]
  intro v hvm hstr
  have hn := h v hvm
  cases v <;> simp_all [Value.isNum, Value.isStr]

theorem isCatCol_eq_true (vs : List Value) (s : String) (h : Value.str s ∈ vs) :
    isCatCol vs = true := by
  unfold isCatCol
  rw [List.any_eq_true]
  exact ⟨Value.str s, h, rfl⟩

theorem mem_insertSorted (a x : String) (l : List String) :
    x ∈ insertSorted a l ↔ x = a ∨ x ∈ l := by
  induction l with
  | nil => simp [insertSorted]
  | cons b l ih =>
    unfold insertSorted
    by_cases h : strLe a b = true
    · rw [if_pos h]
      simp [List.mem_cons]
    · rw [if_neg h, List.mem_cons, ih, List.mem_cons]
      tauto

theorem mem_sortStrings (x : String) (l : List String) :
    x ∈ sortStrings l ↔ x ∈ l := by
  induction l with
  | nil => simp [sortStrings]
  | cons a l ih =>
    unfold sortStrings
    rw [mem_insertSorted, ih, List.mem_cons]

theorem mem_catsOf (vs : List Value) (s : String) (h : Value.str s ∈ vs) :
    s ∈ catsOf vs := by
  unfold catsOf
  rw [mem_sortStrings, List.mem_dedup]
  unfold strVals
  exact List.mem_filterMap.mpr ⟨Value.str s, h, rfl⟩

theorem col_all_str (data : List Record) (hv : ValidBatch data) (k : String)
    (hk : k ∈ batchKeys data) (hcat : isCatCol (colOf data k) = true) :
    ∀ v ∈ colOf data k, v.isStr = true := by
  rcases col_homog data hv k hk with hnum | hstr
  · rw [isCatCol_eq_false _ hnum] at hcat
    cases hcat
  · exact hstr

theorem col_all_num (data : List Record) (hv : ValidBatch data) (k : String)
    (hk : k ∈ batchKeys data) (hcat : isCatCol (colOf data k) = false) :
    ∀ v ∈ colOf data k, v.isNum = true := by
  rcases col_homog data hv k hk with hnum | hstr
  · exact hnum
  · exfalso
    have hlen : colOf data k ≠ [] := by
      unfold colOf
      simp [hv.1]
    obtain ⟨v, hvm⟩ := List.exists_mem_of_ne_nil _ hlen
    have hs := hstr v hvm
    cases v with
    | str s =>
      rw [isCatCol_eq_true _ s hvm] at hcat
      cases hcat
    | num q => simp [Value.isStr] at hs
    | nan => simp [Value.isStr] at hs

/-! ## The expanded frame of a valid batch -/

theorem dfp_cols_valid (data : List Record) (hv : ValidBatch data) :
    (getDummies (dataFrameOf data)).cols =
      (((batchKeys data).map fun k => (k, colOf data k)).filter fun c => !isCatCol c.2) ++
        ((((batchKeys data).map fun k => (k, colOf data k)).filter
            fun c => isCatCol c.2).flatMap dummyCols) := by
  rw [dataFrameOf_valid data hv]
  rfl

theorem mem_dfp_num (data : List Record) (hv : ValidBatch data) (k : String)
    (hk : k ∈ batchKeys data) (hnum : isCatCol (colOf data k) = false) :
    (k, colOf data k) ∈ (getDummies (dataFrameOf data)).cols := by
  rw [dfp_cols_valid data hv, List.mem_append]
  left
  rw [List.mem_filter]
  exact ⟨List.mem_map_of_mem _ hk, by simp [hnum]⟩

theorem mem_dfp_dummy (data : List Record) (hv : ValidBatch data) (k cat : String)
    (hk : k ∈ batchKeys data) (hcat : isCatCol (colOf data k) = true)
    (hc : cat ∈ catsOf (colOf data k)) :
    (dummyName k cat, (colOf data k).map fun x => x.indicator cat)
      ∈ (getDummies (dataFrameOf data)).cols := by
  rw [dfp_cols_valid data hv, List.mem_append]
  right
  rw [List.mem_flatMap]
  refine ⟨(k, colOf data k), ?_, ?_⟩
  · rw [List.mem_filter]
    exact ⟨List.mem_map_of_mem _ hk, hcat⟩
  · unfold dummyCols
    exact List.mem_map_of_mem _ hc

theorem dfp_classify (data : List Record) (hv : ValidBatch data)
    (e : String × List Value) (he : e ∈ (getDummies (dataFrameOf data)).cols) :
    (∃ k, k ∈ batchKeys data ∧ isCatCol (colOf data k) = false ∧ e = (k, colOf data k)) ∨
    (∃ k cat, k ∈ batchKeys data ∧ isCatCol (colOf data k) = true ∧
        cat ∈ catsOf (colOf data k) ∧
        e = (dummyName k cat, (colOf data k).map fun x => x.indicator cat)) := by
  rw [dfp_cols_valid data hv, List.mem_append] at he
  rcases he with he | he
  · left
    rw [List.mem_filter] at he
    obtain ⟨hm, hp⟩ := he
    obtain ⟨k, hk, rfl⟩ := List.mem_map.mp hm
    exact ⟨k, hk, by simpa using hp, rfl⟩
  · right
    rw [List.mem_flatMap] at he
    obtain ⟨c, hc, hec⟩ := he
    rw [List.mem_filter] at hc
    obtain ⟨hm, hp⟩ := hc
    obtain ⟨k, hk, rfl⟩ := List.mem_map.mp hm
    unfold dummyCols at hec
    obtain ⟨cat, hcat, rfl⟩ := List.mem_map.mp hec
    exact ⟨k, cat, hk, hp, hcat, rfl⟩

theorem dfp_unique (data : List Record) (hv : ValidBatch data)
    (e1 e2 : String × List Value)
    (h1 : e1 ∈ (getDummies (dataFrameOf data)).cols)
    (h2 : e2 ∈ (getDummies (dataFrameOf data)).cols)
    (hname : e1.1 = e2.1) : e1 = e2 :=
  List.inj_on_of_nodup_map hv.2.2.2.2 h1 h2 hname

/-- In a valid batch, a numeric attribute label never coincides with a generated
indicator label: the two segments of the expanded frame carry disjoint labels. -/
theorem dfp_no_clash (data : List Record) (hv : ValidBatch data)
    (knum : String) (hknum : knum ∈ batchKeys data)
    (hnum : isCatCol (colOf data knum) = false)
    (k cat : String) (hk : k ∈ batchKeys data)
    (hcat : isCatCol (colOf data k) = true) (hc : cat ∈ catsOf (colOf data k))
    (heq : dummyName k cat = knum) : False := by
  have hnd := hv.2.2.2.2
  rw [dfp_cols_valid data hv, List.map_append] at hnd
  have hdis := (List.nodup_append.mp hnd).2.2
  have e1mem : (knum, colOf data knum) ∈
      ((batchKeys data).map fun k => (k, colOf data k)).filter fun c => !isCatCol c.2 := by
    rw [List.mem_filter]
    exact ⟨List.mem_map_of_mem _ hknum, by simp [hnum]⟩
  have e2mem : (dummyName k cat, (colOf data k).map fun x => x.indicator cat) ∈
      (((batchKeys data).map fun k => (k, colOf data k)).filter
          fun c => isCatCol c.2).flatMap dummyCols := by
    rw [List.mem_flatMap]
    refine ⟨(k, colOf data k), ?_, ?_⟩
    · rw [List.mem_filter]
      exact ⟨List.mem_map_of_mem _ hk, hcat⟩
    · unfold dummyCols
      exact List.mem_map_of_mem _ hc
  have hm2 := List.mem_map_of_mem Prod.fst e2mem
  rw [show ((dummyName k cat, (colOf data k).map fun x => x.indicator cat) :
      String × List Value).1 = knum from heq] at hm2
  exact hdis (List.mem_map_of_mem Prod.fst e1mem) hm2

theorem lookupCol_isSome_of_mem (df : DataFrame) (c : String) (vs : List Value)
    (he : (c, vs) ∈ df.cols) : ∃ ws, lookupCol df c = some ws := by
  have hsome : (df.cols.find? fun p => p.1 == c).isSome = true :=
    List.find?_isSome.mpr ⟨(c, vs), he, by simp⟩
  obtain ⟨pair, hp⟩ := Option.isSome_iff_exists.mp hsome
  refine ⟨pair.2, ?_⟩
  unfold lookupCol
  rw [hp]
  rfl

theorem lookupCol_mem (df : DataFrame) (c : String) (vs : List Value)
    (h : lookupCol df c = some vs) : (c, vs) ∈ df.cols := by
  unfold lookupCol at h
  obtain ⟨pair, hfind, hsnd⟩ := Option.map_eq_some'.mp h
  have hmem := List.mem_of_find?_eq_some hfind
  have hfst : pair.1 = c := by simpa using List.find?_some hfind
  have hpair : pair = (c, vs) := Prod.ext hfst hsnd
  rwa [hpair] at hmem

/-- The central alignment lemma: for a valid batch, the cell of the aligned frame at
row `i` and training column `c` equals `recordCell r c`, read off record `i` alone —
a numeric attribute keeps its value, a category of the record that generates the
label `c` gives `1`, everything else (including indicators whose category the
record does not carry, and training columns absent from the batch) gives `0`. -/
theorem aligned_cell (data : List Record) (hv : ValidBatch data) (c : String)
    (i : Nat) (r : Record) (hi : data.get? i = some r) :
    (((lookupCol (getDummies (dataFrameOf data)) c).getD
        (List.replicate (getDummies (dataFrameOf data)).nRows (Value.num 0))).get? i).getD
      Value.nan = Value.num (recordCell r c) := by
  have hiN : i < data.length := (List.get?_eq_some.mp hi).1
  have hrmem : r ∈ data := List.get?_mem hi
  have hrkeys : Record.keys r = batchKeys data := hv.2.2.1 r hrmem
  have hrnd : (Record.keys r).Nodup := by
    rw [hrkeys]
    exact hv.2.1
  have hdummyEntry : ∀ k2 s2, (k2, Value.str s2) ∈ r →
      (dummyName k2 s2, (colOf data k2).map fun x => x.indicator s2)
        ∈ (getDummies (dataFrameOf data)).cols := by
    intro k2 s2 hmem2
    have hk2 : k2 ∈ batchKeys data := by
      rw [← hrkeys]
      exact mem_keys_of_mem r k2 _ hmem2
    have hlk2 : Record.lookup? r k2 = some (Value.str s2) :=
      lookup?_eq_some_of_mem r k2 _ hrnd hmem2
    have hcell : Value.str s2 ∈ colOf data k2 := by
      have hx := mem_colOf data r k2 hrmem
      rwa [hlk2] at hx
    exact mem_dfp_dummy data hv k2 s2 hk2 (isCatCol_eq_true _ s2 hcell) (mem_catsOf _ s2 hcell)
  have hnumEntry : ∀ q, Record.lookup? r c = some (Value.num q) →
      c ∈ batchKeys data ∧ isCatCol (colOf data c) = false := by
    intro q hrc
    have hcmem : (c, Value.num q) ∈ r := lookup?_mem r c _ hrc
    have hcBK : c ∈ batchKeys data := by
      rw [← hrkeys]
      exact mem_keys_of_mem r c _ hcmem
    refine ⟨hcBK, ?_⟩
    have hcell : Value.num q ∈ colOf data c := by
      have hx := mem_colOf data r c hrmem
      rwa [hrc] at hx
    rcases col_homog data hv c hcBK with hn | hs
    · exact isCatCol_eq_false _ hn
    · exact absurd (hs _ hcell) (by simp [Value.isStr])
  cases hl : lookupCol (getDummies (dataFrameOf data)) c with
  | none =>
    have hfill : (List.replicate (getDummies (dataFrameOf data)).nRows
        (Value.num 0)).get? i = some (Value.num 0) := by
      rw [show (getDummies (dataFrameOf data)).nRows = data.length from rfl,
        List.get?_eq_getElem?, List.getElem?_replicate, if_pos hiN]
    have hdh : Record.dummyHit r c = false := by
      cases hdb : Record.dummyHit r c with
      | false => rfl
      | true =>
        exfalso
        rw [dummyHit_eq_true] at hdb
        obtain ⟨k2, s2, hm2, he2⟩ := hdb
        have hent := hdummyEntry k2 s2 hm2
        rw [he2] at hent
        obtain ⟨ws, hws⟩ := lookupCol_isSome_of_mem _ _ _ hent
        rw [hl] at hws
        cases hws
    cases hrc : Record.lookup? r c with
    | none =>
      simp only [Option.getD_none, hfill, Option.getD_some]
      simp [recordCell, hrc, hdh]
    | some v =>
      cases v with
      | num q =>
        exfalso
        obtain ⟨hcBK, hnum⟩ := hnumEntry q hrc
        obtain ⟨ws, hws⟩ := lookupCol_isSome_of_mem _ _ _ (mem_dfp_num data hv c hcBK hnum)
        rw [hl] at hws
        cases hws
      | str s =>
        simp only [Option.getD_none, hfill, Option.getD_some]
        simp [recordCell, hrc, hdh]
      | nan =>
        simp only [Option.getD_none, hfill, Option.getD_some]
        simp [recordCell, hrc, hdh]
  | some vs =>
    have hmeme : (c, vs) ∈ (getDummies (dataFrameOf data)).cols := lookupCol_mem _ _ _ hl
    rcases dfp_classify data hv (c, vs) hmeme with
      ⟨k, hk, hnum, heq⟩ | ⟨k, cat, hk, hcat, hcats, heq⟩
    · have hck : c = k := congrArg Prod.fst heq
      subst hck
      have hvs : vs = colOf data c := congrArg Prod.snd heq
      have hcr : c ∈ Record.keys r := by
        rw [hrkeys]
        exact hk
      obtain ⟨v, hrc⟩ := lookup?_isSome_of_mem_keys r c hcr
      have hcell : v ∈ colOf data c := by
        have hx := mem_colOf data r c hrmem
        rwa [hrc] at hx
      have hvnum := col_all_num data hv c hk hnum v hcell
      cases v with
      | num q =>
        rw [Option.getD_some, hvs, colOf_get data c i r hi, hrc]
        simp [recordCell, hrc]
      | str s => simp [Value.isNum] at hvnum
      | nan => simp [Value.isNum] at hvnum
    · have hcd : c = dummyName k cat := congrArg Prod.fst heq
      have hvs : vs = (colOf data k).map fun x => x.indicator cat := congrArg Prod.snd heq
      have hkr : k ∈ Record.keys r := by
        rw [hrkeys]
        exact hk
      obtain ⟨v, hrk⟩ := lookup?_isSome_of_mem_keys r k hkr
      have hcell : v ∈ colOf data k := by
        have hx := mem_colOf data r k hrmem
        rwa [hrk] at hx
      have hvstr := col_all_str data hv k hk hcat v hcell
      cases v with
      | num q => simp [Value.isStr] at hvstr
      | nan => simp [Value.isStr] at hvstr
      | str s =>
        have hvi : vs.get? i = some ((Value.str s).indicator cat) := by
          rw [hvs, List.get?_map, colOf_get data k i r hi, hrk]
          rfl
        have hnotnum : ∀ q, Record.lookup? r c ≠ some (Value.num q) := by
          intro q hrc
          obtain ⟨hcBK, hnumc⟩ := hnumEntry q hrc
          exact dfp_no_clash data hv c hcBK hnumc k cat hk hcat hcats hcd.symm
        by_cases hsc : s = cat
        · subst hsc
          have hhit : Record.dummyHit r c = true := by
            rw [dummyHit_eq_true]
            exact ⟨k, s, lookup?_mem r k _ hrk, hcd.symm⟩
          rw [Option.getD_some, hvi]
          cases hrc : Record.lookup? r c with
          | none => simp [recordCell, hrc, hhit, Value.indicator]
          | some v2 =>
            cases v2 with
            | num q => exact absurd hrc (hnotnum q)
            | str s2 => simp [recordCell, hrc, hhit, Value.indicator]
            | nan => simp [recordCell, hrc, hhit, Value.indicator]
        · have hhit : Record.dummyHit r c = false := by
            cases hdb : Record.dummyHit r c with
            | false => rfl
            | true =>
              exfalso
              rw [dummyHit_eq_true] at hdb
              obtain ⟨k2, s2, hm2, he2⟩ := hdb
              have hent := hdummyEntry k2 s2 hm2
              have huniq := dfp_unique data hv (c, vs)
                (dummyName k2 s2, (colOf data k2).map fun x => x.indicator s2)
                hmeme hent (by simpa using he2.symm)
              have hvals : vs = (colOf data k2).map fun x => x.indicator s2 :=
                congrArg Prod.snd huniq
              have hlk2 : Record.lookup? r k2 = some (Value.str s2) :=
                lookup?_eq_some_of_mem r k2 _ hrnd hm2
              have h1 : vs.get? i = some (Value.num 0) := by
                rw [hvi]
                simp [Value.indicator, hsc]
              have h2 : vs.get? i = some (Value.num 1) := by
                rw [hvals, List.get?_map, colOf_get data k2 i r hi, hlk2]
                simp [Value.indicator]
              rw [h1] at h2
              have h3 : (0 : ℚ) = 1 := Value.num.inj (Option.some.inj h2)
              norm_num at h3
          rw [Option.getD_some, hvi]
          cases hrc : Record.lookup? r c with
          | none => simp [recordCell, hrc, hhit, Value.indicator, hsc]
          | some v2 =>
            cases v2 with
            | num q => exact absurd hrc (hnotnum q)
            | str s2 => simp [recordCell, hrc, hhit, Value.indicator, hsc]
            | nan => simp [recordCell, hrc, hhit, Value.indicator, hsc]

theorem reindex_cols_eq (df : DataFrame) (cols : List String) :
    (reindex df cols).cols =
      cols.map fun c =>
        (c, (lookupCol df c).getD (List.replicate df.nRows (Value.num 0))) := rfl

theorem row_eq (df : DataFrame) (i : Nat) :
    df.row i = df.cols.map fun c => (c.2.get? i).getD Value.nan := rfl

/-- Row `i` of the aligned frame of a valid batch is the aligned feature vector of
record `i` alone. -/
theorem aligned_row_eq (data : List Record) (hv : ValidBatch data) (tc : List String)
    (i : Nat) (r : Record) (hi : data.get? i = some r) :
    (reindex (getDummies (dataFrameOf data)) tc).row i
      = (alignedRowOfRecord tc r).map Value.num := by
  rw [row_eq, reindex_cols_eq, List.map_map]
  unfold alignedRowOfRecord
  rw [List.map_map]
  apply List.map_congr_left
  intro c hc
  exact aligned_cell data hv c i r hi

theorem mapM_toNum_map_num (l : List ℚ) :
    (l.map Value.num).mapM Value.toNum? = some l := by
  induction l with
  | nil => rfl
  | cons q l ih =>
    rw [List.map_cons, List.mapM_cons, ih]
    rfl

theorem mapM_option_some_of_forall {α β : Type} (f : α → Option β) (g : α → β) :
    ∀ l : List α, (∀ a ∈ l, f a = some (g a)) → l.mapM f = some (l.map g) := by
  intro l
  induction l with
  | nil => intro _; rfl
  | cons a l ih =>
    intro h
    rw [List.mapM_cons, h a (by simp), ih fun a2 h2 => h a2 (List.mem_cons_of_mem _ h2)]
    rfl

/-- Closed form of a successful run of the predict pipeline on a valid batch. -/
theorem runPredict_valid (m : Model) (tc : List String) (data : List Record)
    (hv : ValidBatch data) (hnf : m.nFeatures = tc.length) :
    runPredict m tc data = .ok (predictedList m tc data) := by
  unfold runPredict modelPredict
  have hwidth : ¬((reindex (getDummies (dataFrameOf data)) tc).cols.length ≠ m.nFeatures) := by
    rw [reindex_cols_eq, List.length_map, hnf]
    exact fun h => h rfl
  rw [if_neg hwidth]
  have hall : ∀ i ∈ List.range (reindex (getDummies (dataFrameOf data)) tc).nRows,
      ((reindex (getDummies (dataFrameOf data)) tc).row i).mapM Value.toNum?
        = some (alignedRowOfRecord tc ((data.get? i).getD [])) := by
    intro i hi2
    have hiN : i < data.length := by
      rw [List.mem_range] at hi2
      exact hi2
    obtain ⟨r, hr⟩ : ∃ r, data.get? i = some r := ⟨_, List.get?_eq_get hiN⟩
    rw [aligned_row_eq data hv tc i r hr, mapM_toNum_map_num, hr]
    rfl
  rw [mapM_option_some_of_forall _ (fun i => alignedRowOfRecord tc ((data.get? i).getD []))
    _ hall]
  show Except.ok (((List.range (reindex (getDummies (dataFrameOf data)) tc).nRows).map
      fun i => alignedRowOfRecord tc ((data.get? i).getD [])).map m.predictRow)
    = Except.ok (predictedList m tc data)
  rw [List.map_map]
  rfl

/-! ## Positivity of forest predictions -/

theorem mean_pos (l : List ℚ) (hne : l ≠ []) (hpos : ∀ q ∈ l, 0 < q) : 0 < mean l := by
  unfold mean
  apply div_pos (List.sum_pos l hpos hne)
  exact_mod_cast List.length_pos.mpr hne

theorem predictRow_pos (m : Model) (row : List ℚ) (htrees : m.trees ≠ [])
    (hleaf : ∀ t ∈ m.trees, t row ≠ []) (hpos : ∀ t ∈ m.trees, ∀ q ∈ t row, 0 < q) :
    0 < m.predictRow row := by
  unfold Model.predictRow
  apply mean_pos
  · simp [htrees]
  · intro q hq
    obtain ⟨t, ht, rfl⟩ := List.mem_map.mp hq
    exact mean_pos _ (hleaf t ht) (hpos t ht)

/-- C1: for every valid batch of N records (N ≥ 1) posted to `/predict` while the
model and the training columns are loaded (a forest of nonempty trees with nonempty
leaves holding positive training targets, its width matching the duplicate-free
training column list), the handler returns `200` whose `predicted_price` is a list
of exactly N numbers — the i-th being the model's prediction on the i-th input
record's aligned features, so one per record in input order — each positive (and
finite: predictions are rationals in this model). -/
theorem predict_valid_batch (m : Model) (tc : List String) (data : List Record)
    (hv : ValidBatch data) (htc : tc.Nodup) (hnf : m.nFeatures = tc.length)
    (htrees : m.trees ≠ [])
    (hleaf : ∀ t ∈ m.trees, ∀ row, t row ≠ [])
    (hpos : ∀ t ∈ m.trees, ∀ row, ∀ q ∈ t row, 0 < q) :
    ∃ prices : List ℚ,
      predictHandler ⟨some m, some tc⟩ data = Response.ok prices ∧
      (predictHandler ⟨some m, some tc⟩ data).statusCode = 200 ∧
      prices.length = data.length ∧ 1 ≤ prices.length ∧
      (∀ i r, data.get? i = some r →
          prices.get? i = some (m.predictRow (alignedRowOfRecord tc r))) ∧
      (∀ p ∈ prices, 0 < p) := by
  have hrun := runPredict_valid m tc data hv hnf
  have hhandler : predictHandler ⟨some m, some tc⟩ data
      = Response.ok (predictedList m tc data) := by
    simp only [predictHandler]
    rw [hrun]
  refine ⟨predictedList m tc data, hhandler, by rw [hhandler]; rfl, ?_, ?_, ?_, ?_⟩
  · unfold predictedList
    rw [List.length_map, List.length_range]
  · unfold predictedList
    rw [List.length_map, List.length_range]
    exact Nat.one_le_iff_ne_zero.mpr fun h => hv.1 (List.length_eq_zero.mp h)
  · intro i r hir
    have hiN : i < data.length := (List.get?_eq_some.mp hir).1
    unfold predictedList
    rw [List.get?_map, List.get?_range hiN, Option.map_some', hir]
    rfl
  · intro p hp
    unfold predictedList at hp
    obtain ⟨i, hi2, rfl⟩ := List.mem_map.mp hp
    exact predictRow_pos m _ htrees (fun t ht => hleaf t ht _) fun t ht => hpos t ht _

def m1 : Model := ⟨3, [fun _ => [(500 : ℚ), 1000], fun _ => [(700 : ℚ)]]⟩

def tc1 : List String := ["carat", "cut_Good", "cut_Ideal"]

def data1 : List Record :=
  [[("carat", Value.num 1), ("cut", Value.str "Ideal")],
   [("carat", Value.num 2), ("cut", Value.str "Premium")]]

/-- Witness for C1: a concrete two-record batch against a concrete two-tree forest
fitted on positive prices. -/
theorem predict_valid_batch_witness :
    ∃ prices : List ℚ,
      predictHandler ⟨some m1, some tc1⟩ data1 = Response.ok prices ∧
      (predictHandler ⟨some m1, some tc1⟩ data1).statusCode = 200 ∧
      prices.length = data1.length ∧ 1 ≤ prices.length ∧
      (∀ i r, data1.get? i = some r →
          prices.get? i = some (m1.predictRow (alignedRowOfRecord tc1 r))) ∧
      (∀ p ∈ prices, 0 < p) := by
  apply predict_valid_batch m1 tc1 data1
  · decide
  · decide
  · rfl
  · intro h
    simp [m1] at h
  · intro t ht row
    have ht2 : t = (fun _ => [(500 : ℚ), 1000]) ∨ t = fun _ => [(700 : ℚ)] := by
      simpa [m1] using ht
    rcases ht2 with rfl | rfl <;> simp
  · intro t ht row q hq
    have ht2 : t = (fun _ => [(500 : ℚ), 1000]) ∨ t = fun _ => [(700 : ℚ)] := by
      simpa [m1] using ht
    rcases ht2 with rfl | rfl
    · have hq2 : q = 500 ∨ q = 1000 := by simpa using hq
      rcases hq2 with rfl | rfl <;> norm_num
    · have hq2 : q = 700 := by simpa using hq
      subst hq2
      norm_num

/-- C7: a record carrying a categorical value unseen at training time raises no
error — the one-hot expansion produces the indicator column for that value, the
alignment drops it (it is absent from the reindexed frame, whose column count stays
that of the training list), and the handler still returns one prediction per input
record. -/
theorem unseen_category_no_error (m : Model) (tc : List String) (data : List Record)
    (hv : ValidBatch data) (hnf : m.nFeatures = tc.length)
    (i : Nat) (r : Record) (k v : String)
    (hi : data.get? i = some r) (hkv : (k, Value.str v) ∈ r)
    (hunseen : dummyName k v ∉ tc) :
    (∃ vs, lookupCol (getDummies (dataFrameOf data)) (dummyName k v) = some vs) ∧
    lookupCol (reindex (getDummies (dataFrameOf data)) tc) (dummyName k v) = none ∧
    (reindex (getDummies (dataFrameOf data)) tc).cols.length = tc.length ∧
    (∃ prices, predictHandler ⟨some m, some tc⟩ data = Response.ok prices ∧
        prices.length = data.length) := by
  have hrmem : r ∈ data := List.get?_mem hi
  have hrkeys : Record.keys r = batchKeys data := hv.2.2.1 r hrmem
  have hrnd : (Record.keys r).Nodup := by
    rw [hrkeys]
    exact hv.2.1
  have hk : k ∈ batchKeys data := by
    rw [← hrkeys]
    exact mem_keys_of_mem r k _ hkv
  have hlk : Record.lookup? r k = some (Value.str v) :=
    lookup?_eq_some_of_mem r k _ hrnd hkv
  have hcell : Value.str v ∈ colOf data k := by
    have hx := mem_colOf data r k hrmem
    rwa [hlk] at hx
  refine ⟨?_, ?_, ?_, ?_⟩
  · exact lookupCol_isSome_of_mem _ _ _
      (mem_dfp_dummy data hv k v hk (isCatCol_eq_true _ v hcell) (mem_catsOf _ v hcell))
  · rw [lookupCol_reindex, if_neg hunseen]
  · rw [reindex_cols_eq, List.length_map]
  · refine ⟨predictedList m tc data, ?_, ?_⟩
    · simp only [predictHandler]
      rw [runPredict_valid m tc data hv hnf]
    · unfold predictedList
      rw [List.length_map, List.length_range]

/-- Witness for C7: the second record of the concrete batch carries `cut = Premium`,
a category absent from the training columns. -/
theorem unseen_category_no_error_witness :
    (∃ vs, lookupCol (getDummies (dataFrameOf data1)) (dummyName "cut" "Premium")
        = some vs) ∧
    lookupCol (reindex (getDummies (dataFrameOf data1)) tc1) (dummyName "cut" "Premium")
      = none ∧
    (reindex (getDummies (dataFrameOf data1)) tc1).cols.length = tc1.length ∧
    (∃ prices, predictHandler ⟨some m1, some tc1⟩ data1 = Response.ok prices ∧
        prices.length = data1.length) :=
  unseen_category_no_error m1 tc1 data1 (by decide) rfl 1
    [("carat", Value.num 2), ("cut", Value.str "Premium")] "cut" "Premium"
    rfl (by decide) (by decide)

end Diamond
